import Mathlib

/-!
# Verification of the `inject` molecule injector

A shallow embedding of the dependency-injection core of the repository:
scopes (`scope.ts`), the deep weak cache (`weak_cache.ts`), the scoper
(`scoper.ts`), and the injector (`injector.ts`).

JavaScript reference identity is modelled by numeric identities: scope
values, tuple objects, cache-entry objects, subscriptions and cleanup
callbacks are all identified by `Nat` ids allocated from a monotone
counter, so `===` becomes decidable equality on ids.  Mutation is
modelled by explicit state threading.  Unbounded recursion (the injector
resolves molecules by synchronous depth-first recursion) is modelled
with a fuel parameter; running out of fuel corresponds to exhausting the
call stack.
-/

namespace Inject

/-- Identity of a JavaScript value used as a scope value (reference identity). -/
abbrev Val := Nat

/-- Identity of a scope object created by `createScope`. -/
abbrev ScopeId := Nat

/-- Identity of a molecule object created by `molecule`. -/
abbrev MolId := Nat

/-- Identity of a `ScopeSubscriptionImpl` object. -/
abbrev SubId := Nat

/-- Identity of a cleanup callback closure. -/
abbrev CleanupId := Nat

/-! ## Generic association-list helpers

JavaScript `Map` keeps insertion order; `Map.set` overwrites in place,
`Map.delete` removes.  `Set` is modelled as an insertion-ordered list
without duplicates. -/

/-- `Map.get`. -/
def assocGet [DecidableEq K] (l : List (K × α)) (k : K) : Option α :=
  match l with
  | [] => none
  | (k', a) :: rest => if k' = k then some a else assocGet rest k

/-- `Map.set`: overwrite in place if the key is present, else append. -/
def assocSet [DecidableEq K] (l : List (K × α)) (k : K) (a : α) : List (K × α) :=
  match l with
  | [] => [(k, a)]
  | (k', a') :: rest => if k' = k then (k, a) :: rest else (k', a') :: assocSet rest k a

/-- `Map.delete`. -/
def assocDelete [DecidableEq K] (l : List (K × α)) (k : K) : List (K × α) :=
  match l with
  | [] => []
  | (k', a') :: rest => if k' = k then rest else (k', a') :: assocDelete rest k

/-- `Set.add`: append if not already a member. -/
def addToSet [DecidableEq α] (l : List α) (a : α) : List α :=
  if a ∈ l then l else l ++ [a]

/-- `Set.delete`. -/
def removeFromSet [DecidableEq α] (l : List α) (a : α) : List α :=
  l.filter (fun x => x ≠ a)

/-- Union of two insertion-ordered sets (`forEach` + `Set.add`). -/
def setUnion [DecidableEq α] (l : List α) (more : List α) : List α :=
  more.foldl addToSet l

/-- `new Set(list)`: deduplicate keeping first occurrences. -/
def dedupKeepFirst [DecidableEq α] : List α → List α
  | [] => []
  | a :: rest => a :: (dedupKeepFirst rest).filter (fun x => x ≠ a)

/-! ## Scopes (`scope.ts`)

`createScope` allocates a unique identity, a strictly increasing sort id
(`debugId++`) and a default value, and memoizes a stable default tuple
`[scope, defaultValue]`.  We model the registry of all created scopes as
a function environment; the memoized default tuple of scope `s` is the
tuple object with the distinguished identity `TupId.defaultTup s`. -/

/-- The scope registry: sort id and default value of every scope. -/
structure ScopeEnv where
  sortId : ScopeId → Nat
  defaultValue : ScopeId → Val

/-- Identity of a scope-tuple array object.  `defaultTup s` is the
memoized `scope.defaultTuple`; `fresh n` is any other tuple array. -/
inductive TupId where
  | defaultTup (s : ScopeId)
  | fresh (n : Nat)
deriving DecidableEq, Repr

/-- A scope tuple `[scope, value]` together with its object identity. -/
structure TupleObj where
  tid : TupId
  scope : ScopeId
  value : Val
deriving DecidableEq, Repr

/-- `scope.defaultTuple`: the lazily-memoized, referentially stable
default tuple of a scope. -/
def scopeDefaultTuple (env : ScopeEnv) (s : ScopeId) : TupleObj :=
  ⟨.defaultTup s, s, env.defaultValue s⟩

/-- The private `InternalOnlyGlobalScope` created at module load, before
any user scope. -/
def InternalOnlyGlobalScope : ScopeId := 0

/-! ## Scope tuple sorting (`scope_tuple_sort.ts`) -/

/-- The comparator `(a, b) => a[0][SortId] - b[0][SortId]`, as the
ordering relation used by the (stable) sort. -/
def tupleLE (env : ScopeEnv) (a b : TupleObj) : Prop :=
  env.sortId a.scope ≤ env.sortId b.scope

instance (env : ScopeEnv) : DecidableRel (tupleLE env) := fun a b =>
  inferInstanceAs (Decidable (env.sortId a.scope ≤ env.sortId b.scope))

instance (env : ScopeEnv) : IsTotal TupleObj (tupleLE env) :=
  ⟨fun a b => Nat.le_total (env.sortId a.scope) (env.sortId b.scope)⟩

instance (env : ScopeEnv) : IsTrans TupleObj (tupleLE env) :=
  ⟨fun _ _ _ hab hbc => Nat.le_trans hab hbc⟩

/-- `scopeTupleSort`: sort a copy of the array by scope sort id. -/
def scopeTupleSort (env : ScopeEnv) (arr : List TupleObj) : List TupleObj :=
  List.insertionSort (tupleLE env) arr

/-! ## Deep weak cache (`weak_cache.ts`)

`WeakCache<TKey, TValue> = WeakMap<TKey, [WeakCache, TValue] | [WeakCache]>`:
every key maps to a subcache and an optional terminal value. -/

/-- The weak cache tree. -/
inductive WCache (K : Type) (V : Type) where
  | mk (entries : List (K × (WCache K V × Option V)))
deriving Repr

instance : Inhabited (WCache K V) := ⟨.mk []⟩

/-- The entry list of a cache node. -/
def WCache.entries : WCache K V → List (K × (WCache K V × Option V))
  | .mk es => es

/-- `getWeakCacheItem`: walk one level per key; absent at any level
short-circuits to absent; at the last key return the terminal slot. -/
def getWeakCacheItem [DecidableEq K] (cache : WCache K V) (deps : List K) : Option V :=
  match deps with
  | [] => none
  | dep :: rest =>
    match assocGet cache.entries dep with
    | none => none
    | some (sub, v) =>
      match rest with
      | [] => v
      | _ :: _ => getWeakCacheItem sub rest

/-- `setWeakCacheItem`: walk, creating `[new WeakMap()]` entries as
needed, and store the item in the terminal slot of the last key. -/
def setWeakCacheItem [DecidableEq K] (cache : WCache K V) (deps : List K) (item : V) :
    WCache K V :=
  match deps with
  | [] => cache
  | dep :: rest =>
    let (sub, v) := (assocGet cache.entries dep).getD (.mk [], none)
    match rest with
    | [] => .mk (assocSet cache.entries dep (sub, some item))
    | _ :: _ => .mk (assocSet cache.entries dep (setWeakCacheItem sub rest item, v))

/-- `removeWeakCacheItem`: walk to the last key and clear the terminal
value slot (`entry[1] = void 0`); no-op if the path is absent. -/
def removeWeakCacheItem [DecidableEq K] (cache : WCache K V) (deps : List K) :
    WCache K V :=
  match deps with
  | [] => cache
  | dep :: rest =>
    match assocGet cache.entries dep with
    | none => cache
    | some (sub, v) =>
      match rest with
      | [] => .mk (assocSet cache.entries dep (sub, none))
      | _ :: _ => .mk (assocSet cache.entries dep (removeWeakCacheItem sub rest, v))

/-- The error thrown by `deepCache` and `upsert` on an empty key list
(`"Dependencies need to exist."`). -/
inductive DeepCacheError where
  | emptyDeps
deriving DecidableEq, Repr

/-- `deepCache(createFn, foundFn, deps)`.  `createFn` and `foundFn` may
have effects, modelled by an explicit state `σ`.  Returns the value, the
updated cache and the updated effect state. -/
def deepCache [DecidableEq K] (cache : WCache K V) (createFn : σ → V × σ)
    (foundFn : V → σ → σ) (deps : List K) (s : σ) :
    Except DeepCacheError (V × WCache K V × σ) :=
  match deps with
  | [] => .error .emptyDeps
  | _ :: _ =>
    match getWeakCacheItem cache deps with
    | some cachedValue => .ok (cachedValue, cache, foundFn cachedValue s)
    | none =>
      let (newObject, s') := createFn s
      .ok (newObject, setWeakCacheItem cache deps newObject, s')

/-- `upsert(createFn, deps)`: always computes and stores
`createFn(currentOrAbsent)`; fails on an empty key list. -/
def upsert [DecidableEq K] (cache : WCache K V) (createFn : Option V → V)
    (deps : List K) : Except DeepCacheError (WCache K V) :=
  match deps with
  | [] => .error .emptyDeps
  | _ :: _ =>
    let cachedValue := getWeakCacheItem cache deps
    .ok (setWeakCacheItem cache deps (createFn cachedValue))

/-! ## Canonical cache path (`injector.ts` `getCachePath`) -/

/-- A key of the molecule cache: a molecule or a scope-tuple object. -/
inductive CacheKey where
  | mol (m : MolId)
  | tup (t : TupleObj)
deriving DecidableEq, Repr

/-- `getCachePath`: filter out tuples whose value is (referentially)
the scope's default, sort the rest by scope sort id, prepend the
molecule. -/
def getCachePath (env : ScopeEnv) (scopes : List TupleObj) (mol : MolId) :
    List CacheKey :=
  let nonDefaultScopes := scopes.filter (fun s => env.defaultValue s.scope ≠ s.value)
  CacheKey.mol mol :: (scopeTupleSort env nonDefaultScopes).map CacheKey.tup

/-! ## State of the injector and the scoper

The injector's mutable objects (`scoper.ts` `scopeCache`,
`injector.ts` `moleculeCache`/`dependencyCache`, the heap of
`MoleculeCacheValue` objects, the cleanup bookkeeping of the scoper)
are gathered in one state record threaded through every operation. -/

/-- What a cleanup callback does when invoked: a user cleanup returned
by an `onMount` callback (identified by a tag), or the automatic
cleanup registered by `runMount` that purges the molecule cache entry
and resets its `isMounted` flag. -/
inductive CleanupSpec where
  | user (tag : Nat)
  | purge (path : List CacheKey) (entry : Nat)
deriving DecidableEq, Repr

/-- Observable events of a run, in order. -/
inductive Event where
  /-- The constructor of molecule `m` ran, for the `runIdx`-th time. -/
  | ctorRun (m : MolId) (runIdx : Nat)
  /-- A mount callback with tag `tag` of cache entry `entry` ran. -/
  | mountCb (entry : Nat) (tag : Nat)
  /-- Cleanup callback `c` (with behaviour `spec`) ran. -/
  | cleanupRun (c : CleanupId) (spec : CleanupSpec)
deriving DecidableEq, Repr

/-- An `onMount` callback registered during construction: running it
emits a `mountCb` event with tag `tag` and optionally returns a fresh
cleanup closure behaving as `user cleanupTag`. -/
structure MountCb where
  tag : Nat
  cleanupTag : Option Nat
deriving DecidableEq, Repr

/-- The dependency snapshot of a cache entry (`Deps` in
`_internal/types.ts`, plus the `molecules` field that `runMolecule`
also stores). -/
structure Deps where
  allScopes : List ScopeId
  buddies : List Nat
  defaultScopes : List ScopeId
  molecules : List MolId
  mountedCallbacks : List MountCb
deriving DecidableEq, Repr

/-- A `MoleculeCacheValue` object; its heap identity is the `Nat` key
it is stored under. -/
structure Entry where
  deps : Deps
  instanceId : Nat
  isMounted : Bool
  path : List CacheKey
  value : Val
deriving DecidableEq, Repr

/-- The record stored per (scope, value) pair in the scoper's
`scopeCache`. -/
structure ScopeRecord where
  cleanups : List CleanupId
  references : List SubId
  tuple : TupleObj
deriving DecidableEq, Repr

/-- The combined mutable state of one injector (and its scoper). -/
structure InjSt where
  /-- `moleculeCache`, mapping canonical paths to entry ids. -/
  molCache : WCache CacheKey Nat
  /-- The heap of `MoleculeCacheValue` objects. -/
  entries : List (Nat × Entry)
  /-- `dependencyCache`: molecule → set of scope ids it depends on. -/
  depCache : List (MolId × List ScopeId)
  /-- `scopeCache`: scope → value → record. -/
  scopeCache : List (ScopeId × List (Val × ScopeRecord))
  /-- `releasedSubscriptions`. -/
  releasedSubs : List SubId
  /-- `cleanupsRun`. -/
  cleanupsRun : List CleanupId
  /-- The behaviour of every allocated cleanup closure. -/
  cleanupDefs : List (CleanupId × CleanupSpec)
  /-- How many times each molecule's constructor has run (models the
  constructor's own impure state between runs). -/
  runCounts : List (MolId × Nat)
  /-- Allocator for fresh identities. -/
  nextId : Nat
  /-- Log of observable events. -/
  events : List Event
deriving Repr

/-- The injector state at creation time.  Fresh ids start at 100 so
that scenario inputs can use small tuple ids without collision. -/
def initSt : InjSt :=
  { molCache := .mk [], entries := [], depCache := [], scopeCache := []
    releasedSubs := [], cleanupsRun := [], cleanupDefs := [], runCounts := []
    nextId := 100, events := [] }

/-- Look up the scoper record for a (scope, value) pair:
`scopeCache.get(scope)?.get(value)`. -/
def scopeCacheGet (st : InjSt) (s : ScopeId) (v : Val) : Option ScopeRecord :=
  match assocGet st.scopeCache s with
  | none => none
  | some valuesForScope => assocGet valuesForScope v

/-- Store the scoper record for a (scope, value) pair, creating the
inner map if needed. -/
def scopeCacheSet (st : InjSt) (s : ScopeId) (v : Val) (r : ScopeRecord) : InjSt :=
  let valuesForScope := (assocGet st.scopeCache s).getD []
  { st with scopeCache := assocSet st.scopeCache s (assocSet valuesForScope v r) }

/-- `scopeMap?.delete(value)`. -/
def scopeCacheDelete (st : InjSt) (s : ScopeId) (v : Val) : InjSt :=
  match assocGet st.scopeCache s with
  | none => st
  | some valuesForScope =>
    { st with scopeCache := assocSet st.scopeCache s (assocDelete valuesForScope v) }

/-! ## The scoper (`scoper.ts`) -/

/-- `getScope`: return the memoized tuple for the pair if one is live,
else the tuple that was passed in. -/
def getScope (st : InjSt) (tuple : TupleObj) : TupleObj :=
  match scopeCacheGet st tuple.scope tuple.value with
  | some cached => cached.tuple
  | none => tuple

/-- A `ScopeSubscriptionImpl`: its object identity and its insertion-
ordered `__tupleMap` (scope → tuple); `__stableArray` is its value
list. -/
structure SubImpl where
  sid : SubId
  tupleMap : List (ScopeId × TupleObj)
deriving DecidableEq, Repr

/-- `__stableArray = Array.from(this.__tupleMap.values())`. -/
def SubImpl.tuples (sub : SubImpl) : List TupleObj :=
  sub.tupleMap.map Prod.snd

/-- `expand(next)`: canonicalize each tuple against live records and
merge into the tuple map by scope.  Returns the canonicalized list. -/
def SubImpl.expand (st : InjSt) (sub : SubImpl) (next : List TupleObj) :
    SubImpl × List TupleObj :=
  let tuples := next.map (getScope st)
  let tm := tuples.foldl (fun m t => assocSet m t.scope t) sub.tupleMap
  (⟨sub.sid, tm⟩, tuples)

/-- `startSubscription`: add this subscription to an existing record's
references, or create a record with reference set `{sub}`. -/
def startSubscription (st : InjSt) (sid : SubId) (tuple : TupleObj) :
    InjSt × TupleObj :=
  match scopeCacheGet st tuple.scope tuple.value with
  | some innerCached =>
    (scopeCacheSet st tuple.scope tuple.value
      { innerCached with references := addToSet innerCached.references sid },
     innerCached.tuple)
  | none =>
    (scopeCacheSet st tuple.scope tuple.value
      { cleanups := [], references := [sid], tuple := tuple },
     tuple)

/-- `startSubscriptions`: start each tuple in order. -/
def startSubscriptions (st : InjSt) (sid : SubId) (tuples : List TupleObj) :
    InjSt × List TupleObj :=
  tuples.foldl
    (fun (acc : InjSt × List TupleObj) t =>
      let (st, ts) := acc
      let (st, t') := startSubscription st sid t
      (st, ts ++ [t']))
    (st, [])

/-- The `tuples.forEach` loop of `releaseTuples`: drop this
subscription from each record's reference set; for each record that
becomes empty, delete it and collect (but do not run) its cleanups. -/
def releaseTuplesGo (sid : SubId) :
    List TupleObj → InjSt → List CleanupId → InjSt × List CleanupId
  | [], st, cleanupsToRun => (st, cleanupsToRun)
  | t :: rest, st, cleanupsToRun =>
    match scopeCacheGet st t.scope t.value with
    | none => releaseTuplesGo sid rest st cleanupsToRun
    | some cached =>
      let references := removeFromSet cached.references sid
      if references.length ≤ 0 then
        releaseTuplesGo sid rest (scopeCacheDelete st t.scope t.value)
          (setUnion cleanupsToRun cached.cleanups)
      else
        releaseTuplesGo sid rest
          (scopeCacheSet st t.scope t.value { cached with references := references })
          cleanupsToRun

/-- `releaseTuples`. -/
def releaseTuples (st : InjSt) (tuples : List TupleObj) (sid : SubId) :
    InjSt × List CleanupId :=
  releaseTuplesGo sid tuples st []

/-- Invoke one cleanup callback: log the event and, for the automatic
purge cleanup, remove the cache entry at its path and reset its
`isMounted` flag. -/
def runCleanupCb (st : InjSt) (c : CleanupId) : InjSt :=
  match assocGet st.cleanupDefs c with
  | none => st
  | some spec =>
    let st := { st with events := st.events ++ [.cleanupRun c spec] }
    match spec with
    | .user _ => st
    | .purge path eid =>
      let st := { st with molCache := removeWeakCacheItem st.molCache path }
      match assocGet st.entries eid with
      | none => st
      | some e => { st with entries := assocSet st.entries eid { e with isMounted := false } }

/-- Run a list of cleanup callbacks in order, skipping any that has
already run anywhere and marking each one as run after invoking it. -/
def runCleanupList : InjSt → List CleanupId → InjSt
  | st, [] => st
  | st, cb :: rest =>
    if cb ∈ st.cleanupsRun then runCleanupList st rest
    else
      let st' := runCleanupCb st cb
      runCleanupList { st' with cleanupsRun := st'.cleanupsRun ++ [cb] } rest

/-- `stopSubscription`: no-op for an already-released subscription;
otherwise release the tuples and run the collected cleanups in reverse
collection order, each at most once globally. -/
def stopSubscription (st : InjSt) (tuples : List TupleObj) (sid : SubId) : InjSt :=
  if sid ∈ st.releasedSubs then st
  else
    let st := { st with releasedSubs := st.releasedSubs ++ [sid] }
    let (st, cleanupsToRun) := releaseTuples st tuples sid
    runCleanupList st cleanupsToRun.reverse


/-- `SubImpl.stop`: `stopSubscription(new Set(this.tuples), this)`. -/
def SubImpl.stop (st : InjSt) (sub : SubImpl) : InjSt :=
  stopSubscription st (dedupKeepFirst sub.tuples) sub.sid

/-- `registerCleanups`: attach every cleanup in the set to the record
backing each tuple; `TypeError` if some pair has no live record. -/
inductive InjErr where
  | stackOverflow
  | conditionalDependency
  | uncachedCleanup
  | ctorFail
  | alreadyStarted
  | alreadyStopped
  | emptyDeps
  | internalBug
deriving DecidableEq, Repr

/-- `registerCleanups` over one tuple. -/
def registerCleanupsTuple (st : InjSt) (t : TupleObj) (cleanupSet : List CleanupId) :
    Except InjErr InjSt :=
  match scopeCacheGet st t.scope t.value with
  | none => .error .uncachedCleanup
  | some r =>
    .ok (scopeCacheSet st t.scope t.value
      { r with cleanups := setUnion r.cleanups cleanupSet })

/-- `registerCleanups(scopeKeys, cleanupSet)`.  The thrown `TypeError`
aborts the remaining registrations but keeps the ones already made. -/
def registerCleanups (st : InjSt) (scopeKeys : List TupleObj)
    (cleanupSet : List CleanupId) : Option InjErr × InjSt :=
  match scopeKeys with
  | [] => (none, st)
  | t :: rest =>
    match registerCleanupsTuple st t cleanupSet with
    | .error e => (some e, st)
    | .ok st' => registerCleanups st' rest cleanupSet

/-- The subscription wrapper returned by `createSubscription`: the
current impl and the `stopped` flag of the closure. -/
structure SubW where
  internal : SubImpl
  stopped : Bool
deriving DecidableEq, Repr

/-- Wrapper `expand`. -/
def SubW.expand (st : InjSt) (w : SubW) (next : List TupleObj) :
    SubW × List TupleObj :=
  let (impl, ts) := SubImpl.expand st w.internal next
  ({ w with internal := impl }, ts)

/-- Wrapper `start`: restart with a fresh impl (preserving the tuple
snapshot) if stopped, else start the current impl. -/
def SubW.start (st : InjSt) (w : SubW) : InjSt × SubW × List TupleObj :=
  if w.stopped then
    let previousTuples := w.internal.tuples
    let sid := st.nextId
    let st := { st with nextId := st.nextId + 1 }
    let (impl, _) := SubImpl.expand st ⟨sid, []⟩ previousTuples
    let (st, tuples) := startSubscriptions st impl.sid impl.tuples
    (st, ⟨impl, false⟩, tuples)
  else
    let (st, tuples) := startSubscriptions st w.internal.sid w.internal.tuples
    (st, w, tuples)

/-- Wrapper `stop`. -/
def SubW.stop (st : InjSt) (w : SubW) : InjSt × SubW :=
  (SubImpl.stop st w.internal, { w with stopped := true })

/-- The `lease` closure of `lazyUse`: `sub.expand([tuple])`, keeping
only the subscription-state effect (its return value is unused). -/
def lease (st : InjSt) (w : SubW) (t : TupleObj) : SubW :=
  (SubW.expand st w [t]).1

/-! ## Molecules and their constructors

A molecule constructor is arbitrary impure code that may call
`getScope`, `getMolecule`, `onMount`, or throw.  We embed it as a list
of such operations; since the code may behave differently on different
invocations, the environment maps a molecule and the index of the
current constructor run to the operation list for that run. -/

/-- One operation performed by a molecule constructor. -/
inductive CtorOp where
  /-- `getScope(s)` (or `use(s)`). -/
  | useScope (s : ScopeId)
  /-- `getMolecule(m)` (or `mol(m)`/`use(m)`). -/
  | useMol (m : MolId)
  /-- `onMount(cb)`, where running `cb` emits a `mountCb` event with
  `tag` and returns a cleanup behaving as `user cleanupTag` (if any). -/
  | mount (tag : Nat) (cleanupTag : Option Nat)
  /-- the constructor throws. -/
  | fail
deriving DecidableEq, Repr

/-- The static environment: the scope registry and every molecule's
constructor (as a function of how many times it has already run). -/
structure MolEnv where
  scopes : ScopeEnv
  ctor : MolId → Nat → List CtorOp

/-- `runAndCache`'s `getScopeValue` closure: the implicit default-scope
set and the value seen by the constructor for a requested scope. -/
def getScopeValue (env : ScopeEnv) (scopes : List TupleObj) (scope : ScopeId) :
    List ScopeId × Val :=
  match scopes.find? (fun t => t.scope = scope) with
  | some found =>
    if found.value = env.defaultValue scope then
      ([scope], env.defaultValue scope)
    else
      ([], found.value)
  | none => ([scope], env.defaultValue scope)

/-- The mutable sets accumulated by `runMolecule` while the constructor
runs. -/
structure RunAcc where
  dependentMolecules : List MolId
  allScopes : List ScopeId
  defaultScopes : List ScopeId
  mountedCallbacks : List MountCb
  buddies : List Nat
deriving DecidableEq, Repr

/-- `runMolecule`'s `use` on a scope: record the scope in `allScopes`,
merge the implicit default-scope set. -/
def accUseScope (env : MolEnv) (scopes : List TupleObj) (acc : RunAcc)
    (s : ScopeId) : RunAcc :=
  let acc := { acc with allScopes := addToSet acc.allScopes s }
  let scopeDetails := getScopeValue env.scopes scopes s
  { acc with defaultScopes := setUnion acc.defaultScopes scopeDetails.1 }

/-- What `runMolecule` returns: the dependency snapshot and the value
built by the constructor. -/
structure MountedResult where
  deps : Deps
  value : Val
deriving DecidableEq, Repr

/-- `multiCache`: compute the canonical path and create-or-reuse the
cache entry there through `deepCache`, leasing the (created or found)
entry's implicit default scopes. -/
def multiCache (env : MolEnv) (mol : MolId) (scopes : List TupleObj)
    (mounted : MountedResult) (w : SubW) (st : InjSt) :
    Except InjErr Nat × SubW × InjSt :=
  let deps := getCachePath env.scopes scopes mol
  let createFn : SubW × InjSt → Nat × (SubW × InjSt) := fun ws =>
    let (w, st) := ws
    let w := mounted.deps.defaultScopes.foldl
      (fun w s => lease st w (scopeDefaultTuple env.scopes s)) w
    let eid := st.nextId
    let innerCached : Entry :=
      { deps := mounted.deps, instanceId := st.nextId + 1, isMounted := false
        path := deps, value := mounted.value }
    (eid, (w, { st with nextId := st.nextId + 2
                        entries := assocSet st.entries eid innerCached }))
  let foundFn : Nat → SubW × InjSt → SubW × InjSt := fun eid ws =>
    let (w, st) := ws
    match assocGet st.entries eid with
    | none => (w, st)
    | some found =>
      (found.deps.defaultScopes.foldl
        (fun w s => lease st w (scopeDefaultTuple env.scopes s)) w, st)
  match deepCache st.molCache createFn foundFn deps (w, st) with
  | .error _ => (.error .emptyDeps, w, st)
  | .ok (eid, cache, ws) => (.ok eid, ws.1, { ws.2 with molCache := cache })

/-- The mutually recursive procedures of the injector, merged into one
fuel-indexed function so that recursion is structural on the fuel (one
unit of fuel per call, standing for one stack frame). -/
inductive Call where
  /-- `getInternal(m, props)` with `props.scopes` and `props.previous`. -/
  | getInternal (m : MolId) (scopes : List TupleObj) (previous : Option Nat)
  /-- `runAndCache(m, props)` (only reached with `previous === false`). -/
  | runAndCache (m : MolId) (scopes : List TupleObj)
  /-- `runMolecule(m, ...)`. -/
  | runMolecule (m : MolId) (scopes : List TupleObj)
  /-- the constructor body: remaining operations and accumulated deps. -/
  | runOps (ops : List CtorOp) (scopes : List TupleObj) (acc : RunAcc)
deriving DecidableEq, Repr

/-- Result of a `Call`. -/
inductive CallRes where
  | entry (eid : Nat)
  | mounted (r : MountedResult)
  | acc (a : RunAcc)
deriving DecidableEq, Repr

/-- The resolution engine: `getInternal` / `runAndCache` /
`runMolecule` of `injector.ts`, with the subscription wrapper (the
`lease` capability) and the injector state threaded through. -/
def interp (env : MolEnv) : Nat → Call → SubW → InjSt →
    Except InjErr CallRes × SubW × InjSt
  | 0, _, w, st => (.error .stackOverflow, w, st)
  | fuel + 1, c, w, st =>
    match c with
    | .getInternal m scopes previous =>
      let stage2 : SubW → InjSt → Except InjErr CallRes × SubW × InjSt := fun w st =>
        match previous with
        | some peid =>
          match assocGet st.entries peid with
          | none => (.error .internalBug, w, st)
          | some pe =>
            match deepCache st.molCache (fun u => (peid, u)) (fun _ u => u) pe.path () with
            | .error _ => (.error .emptyDeps, w, st)
            | .ok (eid, cache, _) => (.ok (.entry eid), w, { st with molCache := cache })
        | none => interp env fuel (.runAndCache m scopes) w st
      match assocGet st.depCache m with
      | some cachedDeps =>
        let relevantScopes := scopes.filter (fun t => t.scope ∈ cachedDeps)
        let deps := getCachePath env.scopes relevantScopes m
        match getWeakCacheItem st.molCache deps with
        | some eid =>
          match assocGet st.entries eid with
          | none => (.error .internalBug, w, st)
          | some cachedValue =>
            let w := cachedValue.deps.defaultScopes.foldl
              (fun w s => lease st w (scopeDefaultTuple env.scopes s)) w
            (.ok (.entry eid), w, st)
        | none => stage2 w st
      | none => stage2 w st
    | .runAndCache m scopes =>
      match interp env fuel (.runMolecule m scopes) w st with
      | (.error e, w, st) => (.error e, w, st)
      | (.ok (.mounted mounted), w, st) =>
        let relatedScope := scopes.filter (fun t => t.scope ∈ mounted.deps.allScopes)
        match assocGet st.depCache m with
        | some cachedDeps =>
          if mounted.deps.allScopes.length ≠ cachedDeps.length then
            (.error .conditionalDependency, w, st)
          else if mounted.deps.allScopes.any (fun s => decide (s ∉ cachedDeps)) then
            (.error .conditionalDependency, w, st)
          else
            match multiCache env m relatedScope mounted w st with
            | (.ok eid, w, st) => (.ok (.entry eid), w, st)
            | (.error e, w, st) => (.error e, w, st)
        | none =>
          let st := { st with depCache := assocSet st.depCache m mounted.deps.allScopes }
          match multiCache env m relatedScope mounted w st with
          | (.ok eid, w, st) => (.ok (.entry eid), w, st)
          | (.error e, w, st) => (.error e, w, st)
      | (.ok _, w, st) => (.error .internalBug, w, st)
    | .runMolecule m scopes =>
      let runIdx := (assocGet st.runCounts m).getD 0
      let st := { st with runCounts := assocSet st.runCounts m (runIdx + 1)
                          events := st.events ++ [.ctorRun m runIdx] }
      let acc0 : RunAcc :=
        { dependentMolecules := [], allScopes := [], defaultScopes := []
          mountedCallbacks := [], buddies := [] }
      let acc1 := accUseScope env scopes acc0 InternalOnlyGlobalScope
      match interp env fuel (.runOps (env.ctor m runIdx) scopes acc1) w st with
      | (.error e, w, st) => (.error e, w, st)
      | (.ok (.acc acc), w, st) =>
        let value := st.nextId
        let st := { st with nextId := st.nextId + 1 }
        (.ok (.mounted
          { deps :=
              { allScopes := acc.allScopes, buddies := acc.buddies.reverse
                defaultScopes := acc.defaultScopes
                molecules := acc.dependentMolecules
                mountedCallbacks := acc.mountedCallbacks }
            value := value }), w, st)
      | (.ok _, w, st) => (.error .internalBug, w, st)
    | .runOps ops scopes acc =>
      match ops with
      | [] => (.ok (.acc acc), w, st)
      | op :: rest =>
        match op with
        | .useScope s =>
          interp env fuel (.runOps rest scopes (accUseScope env scopes acc s)) w st
        | .mount tag ct =>
          interp env fuel
            (.runOps rest scopes
              { acc with mountedCallbacks := acc.mountedCallbacks ++ [⟨tag, ct⟩] }) w st
        | .fail => (.error .ctorFail, w, st)
        | .useMol dep =>
          match interp env fuel (.getInternal dep scopes none) w st with
          | (.error e, w, st) => (.error e, w, st)
          | (.ok (.entry eid), w, st) =>
            match assocGet st.entries eid with
            | none => (.error .internalBug, w, st)
            | some mol =>
              let acc :=
                { acc with
                  dependentMolecules := addToSet acc.dependentMolecules dep
                  allScopes := setUnion acc.allScopes mol.deps.allScopes
                  defaultScopes := setUnion acc.defaultScopes mol.deps.defaultScopes
                  buddies := acc.buddies ++ [eid] }
              interp env fuel (.runOps rest scopes acc) w st
          | (.ok _, w, st) => (.error .internalBug, w, st)

/-- `getInternal` wrapper returning the cache entry id. -/
def getInternal (env : MolEnv) (fuel : Nat) (m : MolId) (scopes : List TupleObj)
    (previous : Option Nat) (w : SubW) (st : InjSt) :
    Except InjErr Nat × SubW × InjSt :=
  match interp env fuel (.getInternal m scopes previous) w st with
  | (.ok (.entry eid), w, st) => (.ok eid, w, st)
  | (.ok _, w, st) => (.error .internalBug, w, st)
  | (.error e, w, st) => (.error e, w, st)

/-- `runMolecule` wrapper returning the mounted result. -/
def runMolecule (env : MolEnv) (fuel : Nat) (m : MolId) (scopes : List TupleObj)
    (w : SubW) (st : InjSt) : Except InjErr MountedResult × SubW × InjSt :=
  match interp env fuel (.runMolecule m scopes) w st with
  | (.ok (.mounted r), w, st) => (.ok r, w, st)
  | (.ok _, w, st) => (.error .internalBug, w, st)
  | (.error e, w, st) => (.error e, w, st)

/-- `runAndCache` wrapper returning the cache entry id. -/
def runAndCache (env : MolEnv) (fuel : Nat) (m : MolId) (scopes : List TupleObj)
    (w : SubW) (st : InjSt) : Except InjErr Nat × SubW × InjSt :=
  match interp env fuel (.runAndCache m scopes) w st with
  | (.ok (.entry eid), w, st) => (.ok eid, w, st)
  | (.ok _, w, st) => (.error .internalBug, w, st)
  | (.error e, w, st) => (.error e, w, st)

/-- `runMount` over a worklist of entries (the singleton call and the
`mol.deps.buddies.forEach(runMount)` recursion): skip mounted entries,
mark as mounted first, recurse into buddies, run the mount callbacks,
then register the collected cleanups (plus the automatic purge
cleanup) for the entry's default-scope tuples and its path tuples. -/
def runMount (env : MolEnv) : Nat → List Nat → InjSt → Except InjErr Unit × InjSt
  | _, [], st => (.ok (), st)
  | 0, _ :: _, st => (.error .stackOverflow, st)
  | fuel + 1, eid :: rest, st =>
    match assocGet st.entries eid with
    | none => (.error .internalBug, st)
    | some mol =>
      if mol.isMounted then runMount env fuel rest st
      else
        let st := { st with entries := assocSet st.entries eid { mol with isMounted := true } }
        match runMount env fuel mol.deps.buddies st with
        | (.error e, st) => (.error e, st)
        | (.ok _, st) =>
          let (st, cleanupSet) := mol.deps.mountedCallbacks.foldl
            (fun (acc : InjSt × List CleanupId) onMountCb =>
              let (st, cs) := acc
              let st := { st with events := st.events ++ [.mountCb eid onMountCb.tag] }
              match onMountCb.cleanupTag with
              | none => (st, cs)
              | some t =>
                let c := st.nextId
                ({ st with nextId := st.nextId + 1
                           cleanupDefs := assocSet st.cleanupDefs c (.user t) },
                 cs ++ [c]))
            (st, [])
          let c := st.nextId
          let st := { st with nextId := st.nextId + 1
                              cleanupDefs := assocSet st.cleanupDefs c (.purge mol.path eid) }
          let cleanupSet := cleanupSet ++ [c]
          let usedDefaultScopes := mol.deps.defaultScopes.map (scopeDefaultTuple env.scopes)
          match registerCleanups st usedDefaultScopes cleanupSet with
          | (some e, st) => (.error e, st)
          | (none, st) =>
            let usedScopes := mol.path.filterMap
              (fun k => match k with | .tup t => some t | .mol _ => none)
            match registerCleanups st usedScopes cleanupSet with
            | (some e, st) => (.error e, st)
            | (none, st) => runMount env fuel rest st

/-! ## The public surface (`injector.ts` `lazyUse` / `use` / `get`) -/

/-- `MoleculeSubscriptionState`. -/
inductive MoleculeSubscriptionState where
  | INITIAL
  | ACTIVE
  | STOPPED
deriving DecidableEq, Repr

/-- The closure state of the `[value, {start, stop}]` handle returned
by `useLazily`. -/
structure LazyHandle where
  mol : MolId
  subW : SubW
  state : MoleculeSubscriptionState
  cacheValue : Nat
deriving DecidableEq, Repr

/-- `lazyUse(m, ...scopes)` up to returning the handle (the snapshot
value and the closures' initial state). -/
def lazyUse (env : MolEnv) (fuel : Nat) (m : MolId) (scopes : List TupleObj)
    (st : InjSt) : Except InjErr (Val × LazyHandle) × InjSt :=
  let sid := st.nextId
  let st := { st with nextId := st.nextId + 1 }
  let sub : SubW := ⟨⟨sid, []⟩, false⟩
  let (sub, tuples) := SubW.expand st sub scopes
  match getInternal env fuel m tuples none sub st with
  | (.error e, _, st) => (.error e, st)
  | (.ok eid, sub, st) =>
    match assocGet st.entries eid with
    | none => (.error .internalBug, st)
    | some e => (.ok (e.value, ⟨m, sub, .INITIAL, eid⟩), st)

/-- The handle's `start()`: throws if already active; otherwise starts
the subscription (restarting it if stopped), re-resolves with the
previous cache value, runs mounts and becomes active. -/
def handleStart (env : MolEnv) (fuel : Nat) (h : LazyHandle) (st : InjSt) :
    Except InjErr Val × LazyHandle × InjSt :=
  if h.state = .ACTIVE then (.error .alreadyStarted, h, st)
  else
    let (st, sub, started) := SubW.start st h.subW
    match getInternal env fuel h.mol started (some h.cacheValue) sub st with
    | (.error e, sub, st) => (.error e, { h with subW := sub }, st)
    | (.ok eid, sub, st) =>
      let h := { h with subW := sub, cacheValue := eid }
      match runMount env fuel [eid] st with
      | (.error e, st) => (.error e, h, st)
      | (.ok _, st) =>
        let h := { h with state := .ACTIVE }
        match assocGet st.entries eid with
        | none => (.error .internalBug, h, st)
        | some e => (.ok e.value, h, st)

/-- The handle's `stop()`: throws if already stopped; otherwise stops
the subscription. -/
def handleStop (st : InjSt) (h : LazyHandle) : Except InjErr Unit × LazyHandle × InjSt :=
  if h.state = .STOPPED then (.error .alreadyStopped, h, st)
  else
    let (st, sub) := SubW.stop st h.subW
    (.ok (), { h with subW := sub, state := .STOPPED }, st)

/-- `use(m, ...scopes) = [start(), stop]` on a fresh lazy handle. -/
def use (env : MolEnv) (fuel : Nat) (m : MolId) (scopes : List TupleObj)
    (st : InjSt) : Except InjErr (Val × LazyHandle) × InjSt :=
  match lazyUse env fuel m scopes st with
  | (.error e, st) => (.error e, st)
  | (.ok (_, h), st) =>
    match handleStart env fuel h st with
    | (.error e, _, st) => (.error e, st)
    | (.ok v, h, st) => (.ok (v, h), st)

/-- `get(m, ...scopes)`: `use` with the unsubscribe discarded (an
implicit never-released lease). -/
def get (env : MolEnv) (fuel : Nat) (m : MolId) (scopes : List TupleObj)
    (st : InjSt) : Except InjErr Val × InjSt :=
  match use env fuel m scopes st with
  | (.error e, st) => (.error e, st)
  | (.ok (v, _), st) => (.ok v, st)

/-! ## Decidable equality for results -/

instance instDecidableEqExcept [DecidableEq ε] [DecidableEq α] :
    DecidableEq (Except ε α) := fun a b =>
  match a, b with
  | .error e, .error f =>
    if h : e = f then .isTrue (congrArg Except.error h)
    else .isFalse (fun hh => h (Except.error.inj hh))
  | .ok x, .ok y =>
    if h : x = y then .isTrue (congrArg Except.ok h)
    else .isFalse (fun hh => h (Except.ok.inj hh))
  | .error _, .ok _ => .isFalse (fun hh => Except.noConfusion hh)
  | .ok _, .error _ => .isFalse (fun hh => Except.noConfusion hh)

/-! ## Lemmas about the canonical cache path -/

/-- Distinctness of the sort ids of two tuples' scopes. -/
def sortIdsNe (env : ScopeEnv) (a b : TupleObj) : Prop :=
  env.sortId a.scope ≠ env.sortId b.scope

/-- `scopeTupleSort` is invariant under permutation of its input when
the sort ids involved are pairwise distinct (as `createScope`'s
strictly increasing `debugId++` guarantees for distinct scopes). -/
theorem scopeTupleSort_eq_of_perm (env : ScopeEnv) {l1 l2 : List TupleObj}
    (hp : l1.Perm l2) (hd : l1.Pairwise (sortIdsNe env)) :
    scopeTupleSort env l1 = scopeTupleSort env l2 := by
  have hsymm : ∀ {x y : TupleObj}, sortIdsNe env x y → sortIdsNe env y x :=
    fun h => Ne.symm h
  have hd2 : l2.Pairwise (sortIdsNe env) := (List.Perm.pairwise_iff hsymm hp).mp hd
  have hperm : (scopeTupleSort env l1).Perm (scopeTupleSort env l2) :=
    ((List.perm_insertionSort _ l1).trans hp).trans (List.perm_insertionSort _ l2).symm
  have hs1 : List.Sorted (tupleLE env) (scopeTupleSort env l1) :=
    List.sorted_insertionSort _ l1
  have hs2 : List.Sorted (tupleLE env) (scopeTupleSort env l2) :=
    List.sorted_insertionSort _ l2
  have hd1' : (scopeTupleSort env l1).Pairwise (sortIdsNe env) :=
    (List.Perm.pairwise_iff hsymm (List.perm_insertionSort _ l1)).mpr hd
  have hd2' : (scopeTupleSort env l2).Pairwise (sortIdsNe env) :=
    (List.Perm.pairwise_iff hsymm (List.perm_insertionSort _ l2)).mpr hd2
  have hstrict1 : List.Sorted
      (fun a b => env.sortId a.scope < env.sortId b.scope) (scopeTupleSort env l1) :=
    (hs1.and hd1').imp (fun h => lt_of_le_of_ne h.1 h.2)
  have hstrict2 : List.Sorted
      (fun a b => env.sortId a.scope < env.sortId b.scope) (scopeTupleSort env l2) :=
    (hs2.and hd2').imp (fun h => lt_of_le_of_ne h.1 h.2)
  haveI : IsAntisymm TupleObj (fun a b => env.sortId a.scope < env.sortId b.scope) :=
    ⟨fun _ _ h1 h2 => (Nat.lt_asymm h1 h2).elim⟩
  exact List.eq_of_perm_of_sorted hperm hstrict1 hstrict2

/-- `getCachePath` is invariant under permutation of the scope tuples
when the sort ids involved are pairwise distinct. -/
theorem getCachePath_eq_of_perm (env : ScopeEnv) (m : MolId) {l1 l2 : List TupleObj}
    (hp : l1.Perm l2) (hd : l1.Pairwise (sortIdsNe env)) :
    getCachePath env l1 m = getCachePath env l2 m := by
  simp only [getCachePath]
  have hpf : (l1.filter (fun s => decide (env.defaultValue s.scope ≠ s.value))).Perm
      (l2.filter (fun s => decide (env.defaultValue s.scope ≠ s.value))) :=
    List.Perm.filter _ hp
  have hdf : (l1.filter (fun s => decide (env.defaultValue s.scope ≠ s.value))).Pairwise
      (sortIdsNe env) := List.Pairwise.filter _ hd
  rw [scopeTupleSort_eq_of_perm env hpf hdf]

/-- Tuples carrying their scope's default value are invisible to
`getCachePath`: filtering them away does not change the path. -/
theorem getCachePath_filter_defaults (env : ScopeEnv) (scopes : List TupleObj)
    (m : MolId) :
    getCachePath env scopes m
      = getCachePath env
          (scopes.filter (fun t => env.defaultValue t.scope ≠ t.value)) m := by
  unfold getCachePath
  rw [List.filter_filter]
  simp only [Bool.and_self]

/-- If every tuple supplied for scope `s` carries `s`'s default value
(in particular if none is supplied at all), `getScopeValue` records
`s` as an implicit default dependency and yields the default value. -/
theorem getScopeValue_default (env : ScopeEnv) (scopes : List TupleObj) (s : ScopeId)
    (h : ∀ t ∈ scopes, t.scope = s → t.value = env.defaultValue s) :
    getScopeValue env scopes s = ([s], env.defaultValue s) := by
  unfold getScopeValue
  cases hf : scopes.find? (fun t => t.scope = s) with
  | none => rfl
  | some found =>
    have hmem := List.mem_of_find?_eq_some hf
    have hpred := List.find?_some hf
    have hscope : found.scope = s := by simpa using hpred
    have hval : found.value = env.defaultValue s := h found hmem hscope
    simp [hval]

/-! ## Lemmas about the deep cache -/

/-- `Map.get` after `Map.set` at the same key. -/
theorem assocGet_assocSet [DecidableEq K] (l : List (K × α)) (k : K) (a : α) :
    assocGet (assocSet l k a) k = some a := by
  induction l with
  | nil => simp [assocSet, assocGet]
  | cons hd tl ih =>
    obtain ⟨k', a'⟩ := hd
    by_cases hk : k' = k
    · simp [assocSet, assocGet, hk]
    · simp [assocSet, assocGet, hk, ih]

/-- Storing at a non-empty path makes the value retrievable at exactly
that path. -/
theorem getWeakCacheItem_setWeakCacheItem [DecidableEq K]
    (deps : List K) (cache : WCache K V) (item : V) (hne : deps ≠ []) :
    getWeakCacheItem (setWeakCacheItem cache deps item) deps = some item := by
  induction deps generalizing cache with
  | nil => exact absurd rfl hne
  | cons dep rest ih =>
    cases rest with
    | nil =>
      have h1 : setWeakCacheItem cache [dep] item
          = .mk (assocSet cache.entries dep
              (((assocGet cache.entries dep).getD (.mk [], none)).1, some item)) := rfl
      rw [h1]
      simp [getWeakCacheItem, WCache.entries, assocGet_assocSet]
    | cons r rs =>
      have h1 : setWeakCacheItem cache (dep :: r :: rs) item
          = .mk (assocSet cache.entries dep
              (setWeakCacheItem ((assocGet cache.entries dep).getD (.mk [], none)).1
                 (r :: rs) item,
               ((assocGet cache.entries dep).getD (.mk [], none)).2)) := rfl
      have h2 : ∀ (es : List (K × (WCache K V × Option V))) (sub : WCache K V)
          (v : Option V), assocGet es dep = some (sub, v) →
          getWeakCacheItem (WCache.mk es) (dep :: r :: rs)
            = getWeakCacheItem sub (r :: rs) := by
        intro es sub v h
        simp [getWeakCacheItem, WCache.entries, h]
      rw [h1, h2 _ _ _ (assocGet_assocSet _ _ _)]
      exact ih _ (by simp)

/-- `deepCache` on a hit returns the stored value unchanged, leaves the
cache unchanged, does not run `createFn`, and invokes `foundFn` on the
stored value as an observation hook. -/
theorem deepCache_found [DecidableEq K] (cache : WCache K V) (createFn : σ → V × σ)
    (foundFn : V → σ → σ) (deps : List K) (s : σ) (v : V) (hne : deps ≠ [])
    (hget : getWeakCacheItem cache deps = some v) :
    deepCache cache createFn foundFn deps s = .ok (v, cache, foundFn v s) := by
  cases deps with
  | nil => exact absurd rfl hne
  | cons d rest => simp [deepCache, hget]

/-- `deepCache` on a miss computes `createFn`, stores the result at the
full key path and returns it. -/
theorem deepCache_missing [DecidableEq K] (cache : WCache K V) (createFn : σ → V × σ)
    (foundFn : V → σ → σ) (deps : List K) (s : σ) (hne : deps ≠ [])
    (hget : getWeakCacheItem cache deps = none) :
    deepCache cache createFn foundFn deps s
      = .ok ((createFn s).1, setWeakCacheItem cache deps (createFn s).1, (createFn s).2) := by
  cases deps with
  | nil => exact absurd rfl hne
  | cons d rest => simp [deepCache, hget]

/-- `upsert` always computes and stores `createFn(currentOrAbsent)`. -/
theorem upsert_stores [DecidableEq K] (cache : WCache K V) (createFn : Option V → V)
    (deps : List K) (hne : deps ≠ []) :
    upsert cache createFn deps
      = .ok (setWeakCacheItem cache deps (createFn (getWeakCacheItem cache deps))) := by
  cases deps with
  | nil => exact absurd rfl hne
  | cons d rest => simp [upsert]

/-! ## Set-membership helper lemmas -/

/-- Membership is preserved by `Set.add`. -/
theorem mem_addToSet [DecidableEq α] {x : α} {l : List α} (a : α) (h : x ∈ l) :
    x ∈ addToSet l a := by
  unfold addToSet
  split
  · exact h
  · exact List.mem_append_left _ h

/-- The added element is a member after `Set.add`. -/
theorem mem_addToSet_self [DecidableEq α] (l : List α) (a : α) : a ∈ addToSet l a := by
  unfold addToSet
  split
  · assumption
  · exact List.mem_append_right _ (List.mem_singleton.mpr rfl)

/-- Membership in the left operand is preserved by set union. -/
theorem mem_setUnion_left [DecidableEq α] {x : α} (more : List α) {l : List α}
    (h : x ∈ l) : x ∈ setUnion l more := by
  induction more generalizing l with
  | nil => exact h
  | cons b bs ih => exact ih (mem_addToSet b h)

/-! ## Scenario environments

Concrete molecule programs used to exercise the end-to-end behaviour
of the injector.  Scope `s` has sort id `s` and default value `0`;
scope `0` is the internal global scope (whose default, a private
symbol, equals no user value). -/

/-- A tuple array object freshly created by the caller. -/
def tup (n : Nat) (s : ScopeId) (v : Val) : TupleObj := ⟨.fresh n, s, v⟩

/-- The scope registry of the scenarios. -/
def scopesA : ScopeEnv := { sortId := fun s => s, defaultValue := fun _ => 0 }

/-- Molecule 0 reads scope 1; every other molecule is dependency-free. -/
def envScoped : MolEnv :=
  { scopes := scopesA
    ctor := fun m _ => if m = 0 then [.useScope 1] else [] }

/-- Molecule 2 reads scopes 1 and 2 (in that order). -/
def envTwoScopes : MolEnv :=
  { scopes := scopesA
    ctor := fun m _ => if m = 2 then [.useScope 1, .useScope 2] else [] }

/-- The diamond: molecule 1 ("top") reads scope 9 and registers mount
callback 10; molecules 2 ("left") and 3 ("right") depend on top and
register mount callbacks 11 and 12; molecule 4 ("bottom") depends on
left and right and registers mount callback 13. -/
def envDiamond : MolEnv :=
  { scopes := scopesA
    ctor := fun m _ =>
      if m = 1 then [.useScope 9, .mount 10 (some 20)]
      else if m = 2 then [.useMol 1, .mount 11 (some 21)]
      else if m = 3 then [.useMol 1, .mount 12 (some 22)]
      else if m = 4 then [.useMol 2, .useMol 3, .mount 13 (some 23)]
      else [] }

/-- Molecule 0 reads scope 1 and registers a mount callback whose
returned cleanup is tagged 20. -/
def envMount : MolEnv :=
  { scopes := scopesA
    ctor := fun m _ => if m = 0 then [.useScope 1, .mount 10 (some 20)] else [] }

/-- Molecule 0 reads scope 1 on its first constructor run and nothing
on later runs: a conditional dependency. -/
def envConditional : MolEnv :=
  { scopes := scopesA
    ctor := fun m run => if m = 0 then (if run = 0 then [.useScope 1] else []) else [] }

/-- Molecule 0 throws on its first constructor run and succeeds on
later runs. -/
def envThrowOnce : MolEnv :=
  { scopes := scopesA
    ctor := fun m run => if m = 0 then (if run = 0 then [.fail] else []) else [] }

/-- The tags of the mount-callback events, in order. -/
def mountTags (es : List Event) : List Nat :=
  es.filterMap (fun e => match e with | Event.mountCb _ t => some t | _ => none)

/-- How many times the cleanup with user tag `tag` has run. -/
def userCleanupCount (es : List Event) (tag : Nat) : Nat :=
  (es.filter (fun e =>
    match e with
    | Event.cleanupRun _ (CleanupSpec.user t) => t = tag
    | _ => false)).length

/-- How many times cleanup callback `c` has run. -/
def cleanupRunCount (es : List Event) (c : CleanupId) : Nat :=
  (es.filter (fun e =>
    match e with
    | Event.cleanupRun c' _ => c' = c
    | _ => false)).length

/-- The `(molecule, run index)` of each constructor run, in order. -/
def ctorRuns (es : List Event) : List (MolId × Nat) :=
  es.filterMap (fun e => match e with | Event.ctorRun m i => some (m, i) | _ => none)

/-! ## Scenario runners -/

/-- Two consecutive `get`s of the scoped molecule 0 with explicit
values `v1` then `v2` (distinct tuple array objects, as in user code). -/
def c1run (v1 v2 : Val) : Except InjErr Val × Except InjErr Val :=
  let p := get envScoped 20 0 [tup 0 1 v1] initSt
  (p.1, (get envScoped 20 0 [tup 1 1 v2] p.2).1)

/-- Two overlapping `use`s of the scoped molecule 0 at explicit value
`v`, then release both leases fully, then `use` again: the 3 values. -/
def c1three (v : Val) : Val × Val × Val :=
  match use envScoped 20 0 [tup 0 1 v] initSt with
  | (.ok (x1, h1), st) =>
    match use envScoped 20 0 [tup 1 1 v] st with
    | (.ok (x2, h2), st) =>
      match handleStop st h1 with
      | (_, _, st) =>
        match handleStop st h2 with
        | (_, _, st) =>
          match use envScoped 20 0 [tup 2 1 v] st with
          | (.ok (x3, _), _) => (x1, x2, x3)
          | _ => (997, 997, 997)
    | _ => (998, 998, 998)
  | _ => (999, 999, 999)

/-- Two consecutive `get`s of molecule 2 (which reads scopes 1 and 2)
with the same explicit values in the two argument orders. -/
def c2run (va vb : Val) : Except InjErr Val × Except InjErr Val :=
  let p := get envTwoScopes 20 2 [tup 0 1 va, tup 1 2 vb] initSt
  (p.1, (get envTwoScopes 20 2 [tup 2 2 vb, tup 3 1 va] p.2).1)

/-- `get(M, [S, S.defaultValue])` followed by `get(M)`. -/
def c3run1 : Except InjErr Val × Except InjErr Val :=
  let p := get envScoped 20 0 [tup 0 1 (scopesA.defaultValue 1)] initSt
  (p.1, (get envScoped 20 0 [] p.2).1)

/-- `get(M)` followed by `get(M, [S, S.defaultValue])`. -/
def c3run2 : Except InjErr Val × Except InjErr Val :=
  let p := get envScoped 20 0 [] initSt
  (p.1, (get envScoped 20 0 [tup 0 1 (scopesA.defaultValue 1)] p.2).1)

/-- Three overlapping `use`s of the mounting molecule 0 at the same
explicit value, and the handles for releasing them. -/
def c4setup : InjSt × List LazyHandle :=
  match use envMount 20 0 [tup 0 1 1] initSt with
  | (.ok (_, h1), st) =>
    match use envMount 20 0 [tup 1 1 1] st with
    | (.ok (_, h2), st) =>
      match use envMount 20 0 [tup 2 1 1] st with
      | (.ok (_, h3), st) => (st, [h1, h2, h3])
      | _ => (initSt, [])
    | _ => (initSt, [])
  | _ => (initSt, [])

/-- Release the leases of `c4setup` in the given order of handles. -/
def c4afterStops (order : List Nat) : InjSt :=
  match c4setup with
  | (st, hs) =>
    order.foldl
      (fun st i =>
        match hs.get? i with
        | some h => (handleStop st h).2.2
        | none => st)
      st

/-- How often the mount's returned cleanup (tag 20) has run after one,
two and all three releases of `c4setup`, releasing in `order`. -/
def c4counts (order : List Nat) : Nat × Nat × Nat :=
  (userCleanupCount (c4afterStops (order.take 1)).events 20,
   userCleanupCount (c4afterStops (order.take 2)).events 20,
   userCleanupCount (c4afterStops order).events 20)

/-- The `useLazily` handle lifecycle: start, start again, stop, stop
again, start again — collecting each outcome. -/
def c8run : Except InjErr Val × Except InjErr Val × Except InjErr Unit ×
    Except InjErr Unit × Except InjErr Val :=
  match lazyUse envScoped 20 0 [tup 0 1 1] initSt with
  | (.ok (_, h), st) =>
    match handleStart envScoped 20 h st with
    | (r1, h, st) =>
      match handleStart envScoped 20 h st with
      | (r1b, h, st) =>
        match handleStop st h with
        | (r2, h, st) =>
          match handleStop st h with
          | (r2b, h, st) =>
            match handleStart envScoped 20 h st with
            | (r3, _, _) => (r1, r1b, r2, r2b, r3)
  | _ => (.error .internalBug, .error .internalBug, .error .internalBug,
          .error .internalBug, .error .internalBug)

/-! ## Claim theorems -/

/-- C9: on the Deep Cache, both `deepCache` and `upsert` throw when the
key list is empty; for every non-empty key list, `deepCache` returns
the already-stored value when one exists at that exact key sequence
(invoking `foundFn` on it and not calling `createFn` — the cache and
the effect state carry only `foundFn`'s observation), and otherwise
computes `createFn()`, stores the result at the full key path (where it
is subsequently retrievable), and returns it. -/
theorem deep_cache_contract :
    (∀ (K V σ : Type) [DecidableEq K] (cache : WCache K V) (createFn : σ → V × σ)
        (foundFn : V → σ → σ) (s : σ),
        deepCache cache createFn foundFn [] s = .error .emptyDeps)
    ∧ (∀ (K V : Type) [DecidableEq K] (cache : WCache K V)
        (createFn : Option V → V),
        upsert cache createFn [] = .error .emptyDeps)
    ∧ (∀ (K V σ : Type) [DecidableEq K] (cache : WCache K V) (createFn : σ → V × σ)
        (foundFn : V → σ → σ) (deps : List K) (s : σ) (v : V), deps ≠ [] →
        getWeakCacheItem cache deps = some v →
        deepCache cache createFn foundFn deps s = .ok (v, cache, foundFn v s))
    ∧ (∀ (K V σ : Type) [DecidableEq K] (cache : WCache K V) (createFn : σ → V × σ)
        (foundFn : V → σ → σ) (deps : List K) (s : σ), deps ≠ [] →
        getWeakCacheItem cache deps = none →
        deepCache cache createFn foundFn deps s
          = .ok ((createFn s).1, setWeakCacheItem cache deps (createFn s).1,
                 (createFn s).2)
          ∧ getWeakCacheItem (setWeakCacheItem cache deps (createFn s).1) deps
              = some (createFn s).1) := by
  refine ⟨fun K V σ _ cache createFn foundFn s => rfl,
          fun K V _ cache createFn => rfl,
          fun K V σ _ cache createFn foundFn deps s v hne hget =>
            deepCache_found cache createFn foundFn deps s v hne hget,
          fun K V σ _ cache createFn foundFn deps s hne hget =>
            ⟨deepCache_missing cache createFn foundFn deps s hne hget,
             getWeakCacheItem_setWeakCacheItem deps cache _ hne⟩⟩

/-- Witness for `deep_cache_contract` at concrete inputs: a miss on the
path `[1, 2]` computes and stores the created value. -/
theorem deep_cache_contract_witness :
    deepCache (WCache.mk [] : WCache Nat Nat) (fun s : Nat => (7, s + 1))
        (fun _ s => s) [1, 2] 0
      = .ok (7, setWeakCacheItem (WCache.mk []) [1, 2] 7, 1)
    ∧ getWeakCacheItem (setWeakCacheItem (WCache.mk [] : WCache Nat Nat) [1, 2] 7)
        [1, 2] = some 7 :=
  deep_cache_contract.2.2.2 Nat Nat Nat (WCache.mk []) (fun s => (7, s + 1))
    (fun _ s => s) [1, 2] 0 (by decide) rfl

/-- C2: resolution is independent of the order in which scope tuples
are passed: the canonical cache path filters default-valued tuples,
sorts the remainder by the scopes' (unique) sort ids and prepends the
molecule, so it is invariant under swapping two tuples of scopes with
distinct sort ids; and end-to-end, `get(M,[A,a],[B,b])` returns the
identical instance as `get(M,[B,b],[A,a])`. -/
theorem cache_path_order_independent :
    (∀ (env : ScopeEnv) (m : MolId) (a b : TupleObj),
        env.sortId a.scope ≠ env.sortId b.scope →
        getCachePath env [a, b] m = getCachePath env [b, a] m)
    ∧ (∀ va vb : Fin 3,
        (c2run (va.val + 1) (vb.val + 1)).1 = (c2run (va.val + 1) (vb.val + 1)).2) := by
  constructor
  · intro env m a b hne
    refine getCachePath_eq_of_perm env m (List.Perm.swap b a []) ?_
    simp only [List.pairwise_cons, List.mem_singleton, List.not_mem_nil,
      false_implies, implies_true, and_true, sortIdsNe]
    refine ⟨fun x hx => ?_, trivial, List.Pairwise.nil⟩
    subst hx
    exact hne
  · decide

/-- Witness for `cache_path_order_independent`: swapping two concrete
tuples of scopes 1 and 2 yields the same canonical path. -/
theorem cache_path_order_independent_witness :
    getCachePath scopesA [tup 0 1 5, tup 1 2 6] 3
      = getCachePath scopesA [tup 1 2 6, tup 0 1 5] 3 :=
  cache_path_order_independent.1 scopesA 3 (tup 0 1 5) (tup 1 2 6) (by decide)

/-- C3: a scope tuple whose value is identical (reference equality,
modelled as identity of value ids) to the scope's default is treated as
absent for cache keying: `getCachePath` ignores it, `getScopeValue`
records the scope as an implicit default dependency exactly as if the
tuple were absent, and end-to-end `get(M, [S, S.defaultValue])`
resolves to the same instance as `get(M)`, in either order. -/
theorem default_value_collapsing :
    (∀ (env : ScopeEnv) (scopes : List TupleObj) (m : MolId),
        getCachePath env scopes m
          = getCachePath env
              (scopes.filter (fun t => env.defaultValue t.scope ≠ t.value)) m)
    ∧ (∀ (env : ScopeEnv) (scopes : List TupleObj) (s : ScopeId),
        (∀ t ∈ scopes, t.scope = s → t.value = env.defaultValue s) →
        getScopeValue env scopes s = ([s], env.defaultValue s))
    ∧ (c3run1.1 = c3run1.2 ∧ c3run2.1 = c3run2.2) := by
  refine ⟨getCachePath_filter_defaults, getScopeValue_default, by decide⟩

/-- Witness for `default_value_collapsing`: a concrete explicit-default
tuple is invisible to the canonical path and recorded as an implicit
default dependency. -/
theorem default_value_collapsing_witness :
    getCachePath scopesA [tup 0 1 0] 0
      = getCachePath scopesA
          ([tup 0 1 0].filter (fun t => scopesA.defaultValue t.scope ≠ t.value)) 0
    ∧ getScopeValue scopesA [tup 0 1 0] 1 = ([1], scopesA.defaultValue 1) :=
  ⟨default_value_collapsing.1 scopesA [tup 0 1 0] 0,
   default_value_collapsing.2.1 scopesA [tup 0 1 0] 1 (by decide)⟩

/-- C8: on the control handle returned by `useLazily`, `start()` while
the subscription is already active throws immediately (leaving the
handle and the injector state untouched), `stop()` when already stopped
throws immediately, and a `start()` after a completed `stop()` succeeds
and returns the value. -/
theorem lazy_subscription_state :
    (∀ (env : MolEnv) (fuel : Nat) (h : LazyHandle) (st : InjSt),
        h.state = .ACTIVE →
        handleStart env fuel h st = (.error .alreadyStarted, h, st))
    ∧ (∀ (st : InjSt) (h : LazyHandle),
        h.state = .STOPPED →
        handleStop st h = (.error .alreadyStopped, h, st))
    ∧ c8run = (.ok 101, .error .alreadyStarted, .ok (), .error .alreadyStopped,
               .ok 101) := by
  refine ⟨fun env fuel h st hs => ?_, fun st h hs => ?_, by decide⟩
  · simp [handleStart, hs]
  · simp [handleStop, hs]

/-- Witness for `lazy_subscription_state` at a concrete active (resp.
stopped) handle. -/
theorem lazy_subscription_state_witness :
    handleStart envScoped 20 ⟨0, ⟨⟨5, []⟩, false⟩, .ACTIVE, 0⟩ initSt
      = (.error .alreadyStarted, ⟨0, ⟨⟨5, []⟩, false⟩, .ACTIVE, 0⟩, initSt)
    ∧ handleStop initSt ⟨0, ⟨⟨5, []⟩, true⟩, .STOPPED, 0⟩
      = (.error .alreadyStopped, ⟨0, ⟨⟨5, []⟩, true⟩, .STOPPED, 0⟩, initSt) :=
  ⟨lazy_subscription_state.1 envScoped 20 _ initSt rfl,
   lazy_subscription_state.2.1 initSt _ rfl⟩

/-- C5: mounting is idempotent and strictly dependency-first: mounting
an already-mounted cache entry is a no-op, and in the diamond
`bottom → {left, right} → top` the shared dependency `top`'s mount
callback (tag 10) runs exactly once and before any dependent's, each
entry's own mount callback running only after its dependencies'. -/
theorem mount_dependency_first :
    (∀ (env : MolEnv) (fuel : Nat) (st : InjSt) (eid : Nat) (rest : List Nat)
        (mol : Entry),
        assocGet st.entries eid = some mol → mol.isMounted = true →
        runMount env (fuel + 1) (eid :: rest) st = runMount env fuel rest st)
    ∧ mountTags (get envDiamond 30 4 [tup 0 9 1] initSt).2.events = [10, 12, 11, 13]
    ∧ (mountTags (get envDiamond 30 4 [tup 0 9 1] initSt).2.events).count 10 = 1 := by
  refine ⟨fun env fuel st eid rest mol hget hm => ?_, by decide, by decide⟩
  simp [runMount, hget, hm]

/-- Witness for `mount_dependency_first`: re-mounting a concrete
already-mounted entry is a no-op. -/
theorem mount_dependency_first_witness :
    runMount envScoped 1 [0]
        { initSt with entries :=
            [(0, { deps := ⟨[], [], [], [], []⟩, instanceId := 0, isMounted := true
                   path := [.mol 0], value := 0 })] }
      = runMount envScoped 0 []
          { initSt with entries :=
              [(0, { deps := ⟨[], [], [], [], []⟩, instanceId := 0, isMounted := true
                     path := [.mol 0], value := 0 })] } :=
  mount_dependency_first.1 envScoped 0 _ 0 [] _ rfl rfl

/-- C7: construction is all-or-nothing.  If the constructor run
(`runMolecule`) throws, `runAndCache` rethrows with the state exactly
as the failed run left it: the dependency-fingerprint recording and the
cache write both happen only after the constructor returns, so no cache
entry and no fingerprint is stored for the failing molecule.
Concretely, with a constructor that throws on its first run: the first
`get` fails leaving neither a fingerprint nor a cache entry for the
molecule, and the next `get` re-runs the constructor and succeeds. -/
theorem construction_all_or_nothing :
    (∀ (env : MolEnv) (fuel : Nat) (m : MolId) (scopes : List TupleObj)
        (w w' : SubW) (st st' : InjSt) (e : InjErr),
        interp env fuel (.runMolecule m scopes) w st = (.error e, w', st') →
        interp env (fuel + 1) (.runAndCache m scopes) w st = (.error e, w', st'))
    ∧ (get envThrowOnce 20 0 [] initSt).1 = .error .ctorFail
    ∧ assocGet ((get envThrowOnce 20 0 [] initSt).2).depCache 0 = none
    ∧ getWeakCacheItem ((get envThrowOnce 20 0 [] initSt).2).molCache
        [CacheKey.mol 0] = none
    ∧ (get envThrowOnce 20 0 [] ((get envThrowOnce 20 0 [] initSt).2)).1 = .ok 102
    ∧ ctorRuns ((get envThrowOnce 20 0 []
        ((get envThrowOnce 20 0 [] initSt).2)).2.events) = [(0, 0), (0, 1)] := by
  refine ⟨fun env fuel m scopes w w' st st' e h => ?_, by decide, by decide,
          by decide, by decide, by decide⟩
  simp only [interp]
  rw [h]

/-- Witness for `construction_all_or_nothing`: the failed first run of
the throwing molecule propagates out of `runAndCache` unchanged. -/
theorem construction_all_or_nothing_witness :
    interp envThrowOnce 21 (Call.runAndCache 0 []) ⟨⟨100, []⟩, false⟩
        { initSt with nextId := 101 }
      = interp envThrowOnce 20 (Call.runMolecule 0 []) ⟨⟨100, []⟩, false⟩
          { initSt with nextId := 101 } :=
  construction_all_or_nothing.1 envThrowOnce 20 0 [] ⟨⟨100, []⟩, false⟩
    (interp envThrowOnce 20 (Call.runMolecule 0 []) ⟨⟨100, []⟩, false⟩
      { initSt with nextId := 101 }).2.1
    { initSt with nextId := 101 }
    (interp envThrowOnce 20 (Call.runMolecule 0 []) ⟨⟨100, []⟩, false⟩
      { initSt with nextId := 101 }).2.2
    .ctorFail rfl

/-- C6: after a constructor run, the discovered scope set must exactly
match the previously recorded fingerprint (same size and members);
divergence makes `runAndCache` throw the fatal conditional-dependency
error immediately, with the state exactly as the constructor run left
it — in particular no new cache entry is stored for the molecule.
Concretely, a molecule reading scope 1 on its first run and nothing on
its second raises the error on the second (divergent) resolution and
leaves no cache entry at its path. -/
theorem conditional_dependency_detected :
    (∀ (env : MolEnv) (fuel : Nat) (m : MolId) (scopes : List TupleObj)
        (w w' : SubW) (st st' : InjSt) (mounted : MountedResult)
        (cachedDeps : List ScopeId),
        interp env fuel (.runMolecule m scopes) w st = (.ok (.mounted mounted), w', st') →
        assocGet st'.depCache m = some cachedDeps →
        (mounted.deps.allScopes.length ≠ cachedDeps.length ∨
          ∃ s ∈ mounted.deps.allScopes, s ∉ cachedDeps) →
        interp env (fuel + 1) (.runAndCache m scopes) w st
          = (.error .conditionalDependency, w', st'))
    ∧ (get envConditional 20 0 []
        ((get envConditional 20 0 [tup 0 1 1] initSt).2)).1
        = .error .conditionalDependency
    ∧ getWeakCacheItem ((get envConditional 20 0 []
        ((get envConditional 20 0 [tup 0 1 1] initSt).2)).2).molCache
        [CacheKey.mol 0] = none := by
  refine ⟨fun env fuel m scopes w w' st st' mounted cachedDeps hrun hdep hmis => ?_,
          by decide, by decide⟩
  simp only [interp]
  rw [hrun]
  dsimp only
  rw [hdep]
  dsimp only
  rcases hmis with hlen | ⟨s, hs, hns⟩
  · rw [if_pos hlen]
  · by_cases hlen : mounted.deps.allScopes.length = cachedDeps.length
    · rw [if_neg (not_not_intro hlen),
        if_pos (List.any_eq_true.mpr ⟨s, hs, decide_eq_true hns⟩)]
    · rw [if_pos hlen]

/-- The injector state after resolving the conditional molecule once
with an explicit value for scope 1. -/
def c6st : InjSt := (get envConditional 20 0 [tup 0 1 1] initSt).2

/-- The (divergent) second constructor run of the conditional molecule,
started from `c6st` with no scopes. -/
def c6mol : Except InjErr CallRes × SubW × InjSt :=
  interp envConditional 20 (Call.runMolecule 0 []) ⟨⟨200, []⟩, false⟩ c6st

/-- The mounted result of that divergent run. -/
def c6mounted : MountedResult :=
  match c6mol.1 with
  | .ok (.mounted r) => r
  | _ => ⟨⟨[], [], [], [], []⟩, 0⟩

/-- Witness for `conditional_dependency_detected`: the divergent second
resolution of the conditional molecule throws, leaving the state the
run produced. -/
theorem conditional_dependency_detected_witness :
    interp envConditional 21 (Call.runAndCache 0 []) ⟨⟨200, []⟩, false⟩ c6st
      = (.error .conditionalDependency, c6mol.2.1, c6mol.2.2) :=
  conditional_dependency_detected.1 envConditional 20 0 [] ⟨⟨200, []⟩, false⟩
    c6mol.2.1 c6st c6mol.2.2 c6mounted [0, 1] rfl (by decide) (.inl (by decide))

/-- Whatever a constructor body does, the scope sets it accumulates
only grow: every scope recorded in the accumulator when the body
starts is still recorded when it finishes. -/
theorem runOps_mono (env : MolEnv) :
    ∀ (fuel : Nat) (ops : List CtorOp) (scopes : List TupleObj) (acc : RunAcc)
      (w : SubW) (st : InjSt) (a : RunAcc) (w' : SubW) (st' : InjSt),
      interp env fuel (.runOps ops scopes acc) w st = (.ok (.acc a), w', st') →
      (∀ s, s ∈ acc.allScopes → s ∈ a.allScopes) ∧
      (∀ s, s ∈ acc.defaultScopes → s ∈ a.defaultScopes) := by
  intro fuel
  induction fuel with
  | zero =>
    intro ops scopes acc w st a w' st' h
    simp [interp] at h
  | succ fuel ih =>
    intro ops scopes acc w st a w' st' h
    cases ops with
    | nil =>
      simp only [interp, Prod.mk.injEq, Except.ok.injEq, CallRes.acc.injEq] at h
      obtain ⟨rfl, -, -⟩ := h
      exact ⟨fun s hs => hs, fun s hs => hs⟩
    | cons op rest =>
      cases op with
      | useScope s0 =>
        simp only [interp] at h
        have hm := ih rest scopes (accUseScope env scopes acc s0) w st a w' st' h
        refine ⟨fun s hs => hm.1 s ?_, fun s hs => hm.2 s ?_⟩
        · simp only [accUseScope]
          exact mem_addToSet _ hs
        · simp only [accUseScope]
          exact mem_setUnion_left _ hs
      | mount tag ct =>
        simp only [interp] at h
        exact ih rest scopes
          { acc with mountedCallbacks := acc.mountedCallbacks ++ [⟨tag, ct⟩] }
          w st a w' st' h
      | fail =>
        simp only [interp] at h
        simp at h
      | useMol dep =>
        simp only [interp] at h
        split at h
        · simp at h
        · split at h
          · simp at h
          · have hm := ih rest scopes _ _ _ a w' st' h
            refine ⟨fun s hs => hm.1 s ?_, fun s hs => hm.2 s ?_⟩
            · exact mem_setUnion_left _ hs
            · exact mem_setUnion_left _ hs
        · simp at h

/-- C10: before running any constructor, the injector records a
dependency on the private internal global scope, so every successful
constructor run reports an `allScopes` set containing it (hence
non-empty) and (when the caller supplied no tuple for it, which user
code cannot) also records it as an implicit default dependency — which
is then leased: after `use` of a dependency-free molecule, the global
scope's default tuple has a live record referenced by the caller's
subscription, carrying the entry's registered cleanup. -/
theorem global_scope_implicit :
    (∀ (env : MolEnv) (fuel : Nat) (m : MolId) (scopes : List TupleObj)
        (w w' : SubW) (st st' : InjSt) (r : MountedResult),
        interp env fuel (.runMolecule m scopes) w st = (.ok (.mounted r), w', st') →
        (∀ t ∈ scopes, t.scope ≠ InternalOnlyGlobalScope) →
        InternalOnlyGlobalScope ∈ r.deps.allScopes
          ∧ InternalOnlyGlobalScope ∈ r.deps.defaultScopes
          ∧ r.deps.allScopes ≠ [])
    ∧ scopeCacheGet (use envScoped 20 5 [] initSt).2 InternalOnlyGlobalScope
        (scopesA.defaultValue InternalOnlyGlobalScope)
      = some { cleanups := [104], references := [100]
               tuple := scopeDefaultTuple scopesA InternalOnlyGlobalScope } := by
  refine ⟨fun env fuel m scopes w w' st st' r hrun hglob => ?_, by decide⟩
  cases fuel with
  | zero => simp [interp] at hrun
  | succ fuel =>
    simp only [interp] at hrun
    split at hrun
    · simp at hrun
    · rename_i acc w2 st2 heq
      simp only [Prod.mk.injEq, Except.ok.injEq, CallRes.mounted.injEq] at hrun
      obtain ⟨hr, -, -⟩ := hrun
      have hm := runOps_mono env fuel _ scopes _ w _ acc w2 st2 heq
      have hall : InternalOnlyGlobalScope ∈ acc.allScopes := by
        apply hm.1
        simp [accUseScope, addToSet]
      have hdef : InternalOnlyGlobalScope ∈ acc.defaultScopes := by
        apply hm.2
        have hval : getScopeValue env.scopes scopes InternalOnlyGlobalScope
            = ([InternalOnlyGlobalScope], env.scopes.defaultValue InternalOnlyGlobalScope) :=
          getScopeValue_default env.scopes scopes InternalOnlyGlobalScope
            (fun t ht hts => absurd hts (hglob t ht))
        simp [accUseScope, hval, setUnion, addToSet]
      rw [← hr]
      exact ⟨hall, hdef, List.ne_nil_of_mem hall⟩
    · simp at hrun

/-- Witness for `global_scope_implicit`: the first constructor run of
the dependency-free molecule 5 records exactly the global scope. -/
theorem global_scope_implicit_witness :
    InternalOnlyGlobalScope
        ∈ (match (interp envScoped 20 (Call.runMolecule 5 []) ⟨⟨100, []⟩, false⟩
              initSt).1 with
           | .ok (.mounted r) => r
           | _ => ⟨⟨[], [], [], [], []⟩, 0⟩).deps.allScopes
      ∧ InternalOnlyGlobalScope
        ∈ (match (interp envScoped 20 (Call.runMolecule 5 []) ⟨⟨100, []⟩, false⟩
              initSt).1 with
           | .ok (.mounted r) => r
           | _ => ⟨⟨[], [], [], [], []⟩, 0⟩).deps.defaultScopes
      ∧ (match (interp envScoped 20 (Call.runMolecule 5 []) ⟨⟨100, []⟩, false⟩
              initSt).1 with
           | .ok (.mounted r) => r
           | _ => ⟨⟨[], [], [], [], []⟩, 0⟩).deps.allScopes ≠ [] :=
  global_scope_implicit.1 envScoped 20 5 [] ⟨⟨100, []⟩, false⟩
    (interp envScoped 20 (Call.runMolecule 5 []) ⟨⟨100, []⟩, false⟩ initSt).2.1
    initSt
    (interp envScoped 20 (Call.runMolecule 5 []) ⟨⟨100, []⟩, false⟩ initSt).2.2
    _ rfl (by simp)

/-! ## Cleanup-at-most-once infrastructure -/

/-- Cleanup-run counts add over event-log concatenation. -/
theorem cleanupRunCount_append (es es2 : List Event) (c : CleanupId) :
    cleanupRunCount (es ++ es2) c = cleanupRunCount es c + cleanupRunCount es2 c := by
  simp [cleanupRunCount, List.filter_append]

/-- Cleanup-run count of a single cleanup event. -/
theorem cleanupRunCount_single (c' : CleanupId) (spec : CleanupSpec) (c : CleanupId) :
    cleanupRunCount [Event.cleanupRun c' spec] c = if c' = c then 1 else 0 := by
  by_cases h : c' = c
  · simp [cleanupRunCount, h]
  · simp [cleanupRunCount, h]

/-- Invoking a cleanup callback does not touch the already-run set. -/
theorem runCleanupCb_cleanupsRun (st : InjSt) (c : CleanupId) :
    (runCleanupCb st c).cleanupsRun = st.cleanupsRun := by
  unfold runCleanupCb
  split
  · rfl
  · split
    · rfl
    · dsimp only
      split
      · rfl
      · rfl

/-- Invoking a cleanup callback appends at most its own run event. -/
theorem runCleanupCb_events (st : InjSt) (c : CleanupId) :
    (runCleanupCb st c).events = st.events
      ∨ ∃ spec, (runCleanupCb st c).events = st.events ++ [Event.cleanupRun c spec] := by
  unfold runCleanupCb
  split
  · exact .inl rfl
  · split
    · exact .inr ⟨_, rfl⟩
    · dsimp only
      split
      · exact .inr ⟨_, rfl⟩
      · exact .inr ⟨_, rfl⟩

/-- Invoking cleanup `c` leaves other callbacks' run counts unchanged. -/
theorem cleanupRunCount_runCleanupCb_ne (st : InjSt) (c c' : CleanupId) (h : c' ≠ c) :
    cleanupRunCount (runCleanupCb st c).events c' = cleanupRunCount st.events c' := by
  rcases runCleanupCb_events st c with he | ⟨spec, he⟩ <;> rw [he]
  rw [cleanupRunCount_append, cleanupRunCount_single]
  simp [Ne.symm h]

/-- Invoking cleanup `c` raises its own run count by at most one. -/
theorem cleanupRunCount_runCleanupCb_le (st : InjSt) (c : CleanupId) :
    cleanupRunCount (runCleanupCb st c).events c ≤ cleanupRunCount st.events c + 1 := by
  rcases runCleanupCb_events st c with he | ⟨spec, he⟩ <;> rw [he]
  · exact Nat.le_succ _
  · rw [cleanupRunCount_append, cleanupRunCount_single]
    simp

/-- The at-most-once invariant: no cleanup has ever run twice, and a
cleanup not in the already-run set has never run. -/
def CleanupsAtMostOnce (st : InjSt) : Prop :=
  ∀ c, cleanupRunCount st.events c ≤ 1
    ∧ (c ∉ st.cleanupsRun → cleanupRunCount st.events c = 0)

/-- Running a cleanup list preserves the at-most-once invariant: each
callback is checked against the persistent already-run set before
being invoked and is marked immediately after. -/
theorem runCleanupList_preserves :
    ∀ (cbs : List CleanupId) (st : InjSt), CleanupsAtMostOnce st →
      CleanupsAtMostOnce (runCleanupList st cbs) := by
  intro cbs
  induction cbs with
  | nil => intro st h; exact h
  | cons cb rest ih =>
    intro st h
    show CleanupsAtMostOnce (runCleanupList st (cb :: rest))
    unfold runCleanupList
    by_cases hmem : cb ∈ st.cleanupsRun
    · rw [if_pos hmem]
      exact ih st h
    · rw [if_neg hmem]
      apply ih
      intro c
      by_cases hc : c = cb
      · subst hc
        refine ⟨?_, fun hnc => absurd ?_ hnc⟩
        · show cleanupRunCount (runCleanupCb st c).events c ≤ 1
          have h0 : cleanupRunCount st.events c = 0 := (h c).2 hmem
          have := cleanupRunCount_runCleanupCb_le st c
          omega
        · show c ∈ (runCleanupCb st c).cleanupsRun ++ [c]
          exact List.mem_append_right _ (List.mem_singleton.mpr rfl)
      · refine ⟨?_, fun hnc => ?_⟩
        · show cleanupRunCount (runCleanupCb st cb).events c ≤ 1
          rw [cleanupRunCount_runCleanupCb_ne st cb c hc]
          exact (h c).1
        · show cleanupRunCount (runCleanupCb st cb).events c = 0
          rw [cleanupRunCount_runCleanupCb_ne st cb c hc]
          apply (h c).2
          intro hcin
          apply hnc
          show c ∈ (runCleanupCb st cb).cleanupsRun ++ [cb]
          rw [runCleanupCb_cleanupsRun]
          exact List.mem_append_left _ hcin

/-- `scopeCacheDelete` touches only the scope cache. -/
theorem scopeCacheDelete_sees (st : InjSt) (s : ScopeId) (v : Val) :
    (scopeCacheDelete st s v).events = st.events
      ∧ (scopeCacheDelete st s v).cleanupsRun = st.cleanupsRun := by
  unfold scopeCacheDelete
  split
  · exact ⟨rfl, rfl⟩
  · exact ⟨rfl, rfl⟩

/-- Releasing tuples only collects cleanups; it runs none and touches
neither the event log nor the already-run set. -/
theorem releaseTuplesGo_sees (sid : SubId) :
    ∀ (tuples : List TupleObj) (st : InjSt) (acc : List CleanupId),
      (releaseTuplesGo sid tuples st acc).1.events = st.events
        ∧ (releaseTuplesGo sid tuples st acc).1.cleanupsRun = st.cleanupsRun := by
  intro tuples
  induction tuples with
  | nil => intro st acc; exact ⟨rfl, rfl⟩
  | cons t rest ih =>
    intro st acc
    unfold releaseTuplesGo
    split
    · exact ih st acc
    · dsimp only
      split
      · rename_i cached hcached hlen
        have h1 := ih (scopeCacheDelete st t.scope t.value) (setUnion acc cached.cleanups)
        have h2 := scopeCacheDelete_sees st t.scope t.value
        exact ⟨h1.1.trans h2.1, h1.2.trans h2.2⟩
      · exact ih _ acc

/-- C4 core: releasing a subscription preserves the global
at-most-once discipline for cleanup callbacks, no matter how many
release paths have already run. -/
theorem stopSubscription_preserves (st : InjSt) (tuples : List TupleObj)
    (sid : SubId) (h : CleanupsAtMostOnce st) :
    CleanupsAtMostOnce (stopSubscription st tuples sid) := by
  unfold stopSubscription
  split
  · exact h
  · show CleanupsAtMostOnce
      (runCleanupList
        (releaseTuples { st with releasedSubs := st.releasedSubs ++ [sid] } tuples sid).1
        (releaseTuples { st with releasedSubs := st.releasedSubs ++ [sid] } tuples sid).2.reverse)
    apply runCleanupList_preserves
    intro c
    have hp := releaseTuplesGo_sees sid tuples
      { st with releasedSubs := st.releasedSubs ++ [sid] } []
    constructor
    · show cleanupRunCount
        (releaseTuplesGo sid tuples { st with releasedSubs := st.releasedSubs ++ [sid] } []).1.events c ≤ 1
      rw [hp.1]
      exact (h c).1
    · intro hnc
      show cleanupRunCount
        (releaseTuplesGo sid tuples { st with releasedSubs := st.releasedSubs ++ [sid] } []).1.events c = 0
      rw [hp.1]
      apply (h c).2
      intro hcin
      apply hnc
      show c ∈ (releaseTuplesGo sid tuples
        { st with releasedSubs := st.releasedSubs ++ [sid] } []).1.cleanupsRun
      rw [hp.2]
      exact hcin

/-- C4: every cleanup callback runs at most once globally — releasing
any subscription preserves the invariant that no callback's run count
exceeds one and callbacks outside the persistent already-run set have
never run — and concretely, with three overlapping `use` leases on the
same (scope, value) pair released in any order, the mount's returned
cleanup has run zero times while any lease remains and exactly once
after the last release. -/
theorem cleanup_at_most_once :
    (∀ (st : InjSt) (tuples : List TupleObj) (sid : SubId),
        CleanupsAtMostOnce st → CleanupsAtMostOnce (stopSubscription st tuples sid))
    ∧ (∀ order ∈ [[0, 1, 2], [0, 2, 1], [1, 0, 2], [1, 2, 0], [2, 0, 1], [2, 1, 0]],
        c4counts order = (0, 0, 1)) := by
  exact ⟨stopSubscription_preserves, by decide⟩

/-- Witness for `cleanup_at_most_once`: releasing a subscription from
the fresh injector state keeps the at-most-once invariant. -/
theorem cleanup_at_most_once_witness :
    CleanupsAtMostOnce (stopSubscription initSt [] 0) :=
  cleanup_at_most_once.1 initSt [] 0
    (fun c => ⟨by simp [cleanupRunCount, initSt], fun _ => by simp [cleanupRunCount, initSt]⟩)

/-- C1: for the scoped molecule, resolving with distinct explicit
values yields distinct instances; repeated `get`/`use` calls with the
same explicit value return the identical instance while a lease is
outstanding; and once every lease has fully released, a later `use`
with the same explicit value returns a fresh instance. -/
theorem scoped_identity :
    (∀ v1 v2 : Fin 4, v1 ≠ v2 →
        (c1run (v1.val + 1) (v2.val + 1)).1 ≠ (c1run (v1.val + 1) (v2.val + 1)).2)
    ∧ (∀ v : Fin 4,
        (c1run (v.val + 1) (v.val + 1)).1 = (c1run (v.val + 1) (v.val + 1)).2)
    ∧ (∀ v : Fin 4, (c1three (v.val + 1)).1 = (c1three (v.val + 1)).2.1
        ∧ (c1three (v.val + 1)).1 ≠ (c1three (v.val + 1)).2.2) := by
  refine ⟨by decide, by decide, by decide⟩

/-- Witness for `scoped_identity` at the concrete values 1 and 2. -/
theorem scoped_identity_witness :
    (c1run ((0 : Fin 4).val + 1) ((1 : Fin 4).val + 1)).1
      ≠ (c1run ((0 : Fin 4).val + 1) ((1 : Fin 4).val + 1)).2 :=
  scoped_identity.1 0 1 (by decide)

end Inject
